import Mathlib

/-!
Verification of the bulk job execution and progress-notification core of the
okiedokie-utility repository, as a shallow embedding in Lean 4.

The embedding translates (from the TypeScript source, not from the spec):
  * `src/backend/src/services/documentFetcherService.ts`
      - `processExcelFile`, `processDownloadQueue`, `processDocument`,
        `downloadFileWithProgress`, `extractFileId`, `isValidGoogleDriveLink`,
        `getFileExtension`, `createZipArchive`
  * `src/backend/src/socket/socketHandlers.ts`
      - `emitProgress`, `emitCompletion`, `emitError`
  * the password-generator route module (unnamed part 001)
      - `createPassword`

Modelling conventions:
  * JavaScript strings are `String`/`List Char`; `undefined` is `Option.none`.
  * Asynchronous I/O (directory creation, the HTTP download, the stream write,
    `fs.stat`, archive finalization) is driven by explicit environments
    (`ItemEnv`, `BatchEnv`) whose fields record the outcome each operation
    would produce; a thrown/rejected operation is an `Except.error` carrying
    the JS `Error`'s `.message` string.
  * Execution is single-threaded cooperative (as in Node).  The completion
    callbacks of a chunk are linearized in queue order: the per-item callback
    body (result push, counter increment, progress emit) runs atomically on
    the single JS thread, so every interleaving produces the traces modelled
    here up to within-chunk permutation, which none of the proved counting or
    payload properties depend on.
  * Timestamps (`new Date().toISOString()`) are dropped from all payloads.
-/

/-! ### Small string/char helpers (models of JS string and path primitives) -/

/-- Lowercase every character (model of `String.prototype.toLowerCase` for
the ASCII strings that appear here). -/
def toLowerList (l : List Char) : List Char := l.map Char.toLower

/-- `pat` occurs as a contiguous substring starting at some position of `s`. -/
def containsList (s pat : List Char) : Bool :=
  match s with
  | [] => pat.isEmpty
  | _ :: rest => pat.isPrefixOf s || containsList rest pat

/-- `pat` occurs as a contiguous substring (model of `String.prototype.includes`). -/
def containsSub (s pat : String) : Bool := containsList s.data pat.data

/-- Model of Node's `path.join` for the plain segments used by the service. -/
def pathJoin (a b : String) : String := a ++ "/" ++ b

/-- Model of `path.basename`: the part after the last `/`. -/
def basename (p : String) : String :=
  String.mk ((p.data.reverse.takeWhile (fun c => !(c == '/'))).reverse)

/-- Model of `path.dirname`: the part before the last `/` (all paths built by
the service contain at least one separator). -/
def dirname (p : String) : String :=
  String.mk (((p.data.reverse.dropWhile (fun c => !(c == '/'))).drop 1).reverse)

/-- JS `\s` for the characters that can occur in spreadsheet column names. -/
def isWs (c : Char) : Bool := c == ' ' || c == '\t' || c == '\n' || c == '\r'

/-- Model of `columnName.replace(/\s+/g, '_')`: every maximal whitespace run
becomes a single underscore.  The flag records whether the previous character
was part of a whitespace run already replaced. -/
def collapseWsAux : Bool → List Char → List Char
  | _, [] => []
  | prevWs, c :: rest =>
    if isWs c then
      (if prevWs then [] else ['_']) ++ collapseWsAux true rest
    else c :: collapseWsAux false rest

/-- `s.replace(/\s+/g, '_')` as used to build the downloaded file name. -/
def collapseWs (s : String) : String := String.mk (collapseWsAux false s.data)

/-- JS `x || dflt` on an optional string: the default replaces both a missing
value and the (falsy) empty string. -/
def orElseStr (x : Option String) (dflt : String) : String :=
  match x with
  | some s => if s = "" then dflt else s
  | none => dflt

/-! ### `isValidGoogleDriveLink` and `extractFileId` -/

/-- Strip an `http://` / `https://` scheme prefix (model of the `new URL(url)`
parse restricted to the web URLs handled by this service; any other input
makes the constructor throw, modelled as `none`). -/
def afterScheme (l : List Char) : Option (List Char) :=
  if (['h','t','t','p','s',':','/','/'] : List Char).isPrefixOf (toLowerList l) then
    some (l.drop 8)
  else if (['h','t','t','p',':','/','/'] : List Char).isPrefixOf (toLowerList l) then
    some (l.drop 7)
  else none

/-- Model of `new URL(url).hostname`: the authority up to the first `/`, `?`
or `#`, with userinfo and port removed and letters lowercased; an empty host
is a parse failure. -/
def hostnameOf (url : String) : Option String :=
  match afterScheme url.data with
  | none => none
  | some rest =>
    let auth := rest.takeWhile (fun c => !(c == '/') && !(c == '?') && !(c == '#'))
    let hostPort := if auth.contains '@' then (auth.reverse.takeWhile (fun c => !(c == '@'))).reverse else auth
    let host := hostPort.takeWhile (fun c => !(c == ':'))
    if host.isEmpty then none else some (String.mk (toLowerList host))

/-- `isValidGoogleDriveLink` from documentFetcherService.ts: the URL must
parse, its hostname must be `drive.google.com`, and the raw string must
contain one of the three Drive path shapes. -/
def isValidGoogleDriveLink (url : String) : Bool :=
  match hostnameOf url with
  | none => false
  | some h =>
    h == "drive.google.com" &&
      (containsSub url "/file/d/" || containsSub url "/open?id=" || containsSub url "/uc?")

/-- The character class `[a-zA-Z0-9-_]` of the file-id regexes. -/
def isIdChar (c : Char) : Bool := c.isAlphanum || c == '-' || c == '_'

/-- Left-to-right regex scan: at each position, if one of the literal markers
matches and is followed by a non-empty run of id characters, capture that run;
otherwise keep scanning (as the JS regex engine does when the capture group
would be empty). -/
def scanCapture (markers : List (List Char)) : List Char → Option (List Char)
  | [] => none
  | c :: rest =>
    match markers.find? (fun m => m.isPrefixOf (c :: rest)) with
    | some m =>
      let cap := ((c :: rest).drop m.length).takeWhile isIdChar
      if cap.isEmpty then scanCapture markers rest else some cap
    | none => scanCapture markers rest

/-- `extractFileId`: try `/\/d\/([a-zA-Z0-9-_]+)/`, then
`/[?&]id=([a-zA-Z0-9-_]+)/`, then `/\/file\/d\/([a-zA-Z0-9-_]+)/`;
`null` (here `none`) when none of them matches. -/
def extractFileId (url : String) : Option String :=
  match scanCapture [['/','d','/']] url.data with
  | some cap => some (String.mk cap)
  | none =>
    match scanCapture [['?','i','d','='], ['&','i','d','=']] url.data with
    | some cap => some (String.mk cap)
    | none =>
      match scanCapture [['/','f','i','l','e','/','d','/']] url.data with
      | some cap => some (String.mk cap)
      | none => none

/-- `getFileExtension(contentType, originalUrl)` translated clause by clause. -/
def getFileExtension (contentType originalUrl : String) : String :=
  if containsSub contentType "pdf" then ".pdf"
  else if containsSub contentType "jpeg" || containsSub contentType "jpg" then ".jpg"
  else if containsSub contentType "png" then ".png"
  else if containsSub contentType "image" then ".jpg"
  else if containsSub (String.mk (toLowerList originalUrl.data)) ".jpg" ||
          containsSub (String.mk (toLowerList originalUrl.data)) ".jpeg" then ".jpg"
  else if containsSub (String.mk (toLowerList originalUrl.data)) ".png" then ".png"
  else ".pdf"

/-! ### Data model of the document-fetcher service -/

/-- `status` values of the per-item result type (the union type of the
repository's result records; the service itself only ever produces the three
terminal ones). -/
inductive Status
  | pending
  | processing
  | success
  | failed
  | skipped
deriving DecidableEq, Repr

/-- A spreadsheet cell as seen through `row[colName]`: absent (`undefined`),
a string, or some non-string value (`typeof link !== 'string'`). -/
inductive Cell
  | strVal (s : String)
  | nonStr
deriving DecidableEq, Repr

/-- One parsed row.  `regNo` is the value of
`row['Reg No'] || row['regNo'] || row['REG NO']` (`none` when all three are
falsy; a present value is by construction a truthy, i.e. non-empty, string). -/
structure StudentRow where
  regNo : Option String
  cells : List (String × Cell)
deriving DecidableEq, Repr

/-- `row[colName]` for a row that is present. -/
def getCell (row : StudentRow) (col : String) : Option Cell :=
  row.cells.lookup col

/-- `DocumentFetcherConfig` as the service consumes it: the column→folder
mapping (`Object.entries(config.columnMapping || {})`) and the optional
`maxConcurrent` number. -/
structure DFConfig where
  columnMapping : List (String × String)
  maxConcurrent : Option Int
deriving DecidableEq, Repr

/-- `config.maxConcurrent || MAX_CONCURRENT_DOWNLOADS`: a missing value and
the falsy `0` both fall back to the constant `20`; every other number,
including a negative one, is passed through unchanged. -/
def effectiveMaxConcurrent (c : Option Int) : Int :=
  match c with
  | none => 20
  | some k => if k = 0 then 20 else k

/-- `DocumentFetcherResult` (timestamps dropped; `errorField` is the record's
optional `error` property). -/
structure DFResult where
  id : String
  regNo : String
  column : String
  status : Status
  message : String
  filePath : Option String
  fileName : Option String
  fileSize : Option Nat
  errorField : Option String
deriving DecidableEq, Repr

/-- Outcome the environment assigns to one item's download attempt:
the axios request throws/rejects (`httpErr`), the write stream errors
(`writeErr`), or the write stream finishes with the response's content type
(`finish`). -/
inductive DlOutcome
  | finish (contentType : String)
  | writeErr (msg : String)
  | httpErr (msg : String)
deriving DecidableEq, Repr

instance {ε α : Type} [DecidableEq ε] [DecidableEq α] : DecidableEq (Except ε α) := fun x y =>
  match x, y with
  | Except.error a, Except.error b =>
    if h : a = b then isTrue (by rw [h]) else isFalse (fun he => by cases he; exact h rfl)
  | Except.ok a, Except.ok b =>
    if h : a = b then isTrue (by rw [h]) else isFalse (fun he => by cases he; exact h rfl)
  | Except.error _, Except.ok _ => isFalse (fun he => by cases he)
  | Except.ok _, Except.error _ => isFalse (fun he => by cases he)

/-- Environment of one `processDocument` call: the outcomes of
`fs.ensureDir(folderPath)`, the download, and `fs.stat` (file size on
success).  An `Except.error` models a thrown/rejected operation carrying the
JS `Error`'s message. -/
structure ItemEnv where
  ensureDir : Except String Unit
  download : DlOutcome
  stat : Except String Nat
deriving DecidableEq, Repr

/-- Payload of the service's `document-fetcher:start` event. -/
structure StartPayload where
  jobId : String
  totalRecords : Nat
  totalTasks : Nat
  skippedTasks : Nat
  downloadTasks : Nat
deriving DecidableEq, Repr

/-- Payload of a `document-fetcher:progress` event; `progressPct` is the
computed `(completedTasks / totalTasks) * 100` (JS floating division modelled
exactly on the rationals). -/
structure ProgressPayload where
  jobId : String
  current : Nat
  total : Nat
  progressPct : ℚ
  result : DFResult
deriving DecidableEq, Repr

/-- Payload of the service's `document-fetcher:complete` event. -/
structure CompletePayload where
  jobId : String
  totalProcessed : Nat
  totalSkipped : Nat
  zipPath : String
  results : List DFResult
deriving DecidableEq, Repr

/-- One emitted socket event of the document-fetcher pipeline.  The driver's
`start`/`complete` payload shapes differ from the service's, hence separate
constructors. -/
inductive DFEvent
  | start (p : StartPayload)
  | progress (p : ProgressPayload)
  | complete (p : CompletePayload)
  | errEvent (jobId : String) (msg : String)
  | dlStart (jobId regNo col url : String)
  | dlComplete (jobId regNo col filePath : String)
  | dlError (jobId regNo col msg : String)
  | startDriver (jobId : String) (totalRecords : Nat) (config : DFConfig)
  | completeDriver (jobId : String) (results : List DFResult)
deriving DecidableEq, Repr

/-- `process.env.DOWNLOAD_DIR || 'downloads'`. -/
def DOWNLOAD_DIR : String := "downloads"

/-- `path.flatten(DOWNLOAD_DIR, 'documents_' + jobId + '.zip')`. -/
def zipPathName (jobId : String) : String :=
  pathJoin DOWNLOAD_DIR ("documents_" ++ jobId ++ ".zip")

/-! ### `downloadFileWithProgress` and `processDocument` -/

/-- Resolution value of `downloadFileWithProgress`
(`{ success, filePath?, fileName?, error? }`). -/
structure DlResult where
  success : Bool
  filePathF : Option String
  fileNameF : Option String
  errorF : Option String
deriving DecidableEq, Repr

/-- `downloadFileWithProgress(fileId, filePath, originalUrl, jobId, io, regNo,
columnName)`: emits a download-start event, then either the axios call throws
(caught, resolved with `success:false`), the writer errors (resolved with
`success:false`), or the writer finishes (resolved with the final path
`filePath + extension`).  It never rejects. -/
def downloadModel (jobId fid filePath origUrl regNo col : String) (env : ItemEnv) :
    DlResult × List DFEvent :=
  let url := "https://drive.google.com/uc?export=download&id=" ++ fid
  let startE := DFEvent.dlStart jobId regNo col url
  match env.download with
  | DlOutcome.httpErr m =>
    (⟨false, none, none, some m⟩, [startE, DFEvent.dlError jobId regNo col m])
  | DlOutcome.writeErr m =>
    (⟨false, none, none, some m⟩, [startE, DFEvent.dlError jobId regNo col m])
  | DlOutcome.finish ct =>
    let fp := filePath ++ getFileExtension ct origUrl
    (⟨true, some fp, some (basename fp), none⟩,
     [startE, DFEvent.dlComplete jobId regNo col fp])

/-- One queued work item: the captured `(regNo, colName, folderName, link)`. -/
structure TaskDesc where
  regNo : String
  column : String
  folder : String
  link : String
deriving DecidableEq, Repr

/-- The early-return result for a link from which no file id can be
extracted.  Note: the source sets `message` but NOT the `error` property in
this branch. -/
def invalidLinkResult (regNo col : String) : DFResult :=
  ⟨regNo ++ "-" ++ col, regNo, col, Status.failed, "Invalid Google Drive link",
   none, none, none, none⟩

/-- Result produced by `processDocument`'s `catch` block for a thrown `Error`
with message `m` (`message` and `error` are both `error.message`). -/
def thrownResult (regNo col m : String) : DFResult :=
  ⟨regNo ++ "-" ++ col, regNo, col, Status.failed, m, none, none, none, some m⟩

/-- The `else` branch for an unsuccessful download:
`message: success.error || 'Download failed'`,
`error: success.error || 'Unknown error'`. -/
def failedDlResult (regNo col : String) (dl : DlResult) : DFResult :=
  ⟨regNo ++ "-" ++ col, regNo, col, Status.failed,
   orElseStr dl.errorF "Download failed", none, none, none,
   some (orElseStr dl.errorF "Unknown error")⟩

/-- Truthiness of `success.filePath` (`undefined` and `''` are falsy). -/
def dlPathTruthy (dl : DlResult) : Bool :=
  match dl.filePathF with
  | some fp => !(fp == "")
  | none => false

/-- `processDocument` with its event trace.  The entire body runs inside a
`try`/`catch`, so a throw from `fs.ensureDir` or `fs.stat` becomes a
`thrownResult`; the function always returns a result and never rejects. -/
def processDocumentTraced (jobId : String) (t : TaskDesc) (env : ItemEnv) :
    DFResult × List DFEvent :=
  match extractFileId t.link with
  | none => (invalidLinkResult t.regNo t.column, [])
  | some fid =>
    match env.ensureDir with
    | Except.error m => (thrownResult t.regNo t.column m, [])
    | Except.ok _ =>
      let fileName := t.regNo ++ "_" ++ collapseWs t.column
      let filePath := pathJoin (pathJoin DOWNLOAD_DIR t.folder) fileName
      let dlev := downloadModel jobId fid filePath t.link t.regNo t.column env
      let dl := dlev.1
      if dl.success && dlPathTruthy dl then
        match env.stat with
        | Except.error m => (thrownResult t.regNo t.column m, dlev.2)
        | Except.ok sz =>
          (⟨t.regNo ++ "-" ++ t.column, t.regNo, t.column, Status.success,
            "Downloaded successfully", dl.filePathF,
            some (orElseStr dl.fileNameF "unknown"), some sz, none⟩, dlev.2)
      else (failedDlResult t.regNo t.column dl, dlev.2)

/-- `processDocument(regNo, columnName, folderName, link, jobId, io)`:
the returned per-item result. -/
def processDocument (regNo col folder link jobId : String) (env : ItemEnv) : DFResult :=
  (processDocumentTraced jobId ⟨regNo, col, folder, link⟩ env).1

/-! ### `processDownloadQueue`: chunking -/

/-- JS `Array.prototype.slice(s, e)` with its negative-index semantics:
a negative bound counts from the end, bounds are clamped to `[0, length]`. -/
def jsSlice {α : Type} (l : List α) (s e : Int) : List α :=
  let len : Int := (l.length : Int)
  let s1 : Nat := (if s < 0 then max (len + s) 0 else min s len).toNat
  let e1 : Nat := (if e < 0 then max (len + e) 0 else min e len).toNat
  (l.take e1).drop s1

/-- The chunk-building loop of `processDownloadQueue`
(`for (let i = 0; i < queue.length; i += maxConcurrent) chunks.push(queue.slice(i, i + maxConcurrent))`)
translated literally, with the loop counter as the JS number it is (an `Int`)
and an explicit fuel: `none` means the loop has not finished within `fuel`
iterations.  For `maxConcurrent ≤ 0` the counter never reaches
`queue.length`, so the loop diverges on any non-empty queue. -/
def chunkLoopFuel {α : Type} (queue : List α) (k : Int) :
    Nat → Int → List (List α) → Option (List (List α))
  | 0, _, _ => none
  | fuel + 1, i, acc =>
    if i < (queue.length : Int) then
      chunkLoopFuel queue k fuel (i + k) (acc ++ [jsSlice queue i (i + k)])
    else some acc

/-- Structural-fuel version of the chunk partition for a positive chunk
size; `chunksOf` instantiates the fuel with the queue length, which suffices
because every round consumes at least one element. -/
def chunksOfAux {α : Type} (k : Nat) : Nat → List α → List (List α)
  | 0, _ => []
  | _, [] => []
  | fuel + 1, x :: xs => (x :: xs).take k :: chunksOfAux k fuel ((x :: xs).drop k)

/-- The chunk list `processDownloadQueue` builds for a positive
`maxConcurrent` (proved against `chunkLoopFuel` below): consecutive slices of
size `k`, the last possibly smaller. -/
def chunksOf {α : Type} (l : List α) (k : Nat) : List (List α) :=
  chunksOfAux k l.length l

/-! ### `processExcelFile`: first pass (totals), second pass (queue build) -/

/-- First-pass per-column test
`link && typeof link === 'string' && isValidGoogleDriveLink(link)`. -/
def linkTaskOk (cell : Option Cell) : Bool :=
  match cell with
  | some (Cell.strVal s) => !(s == "") && isValidGoogleDriveLink s
  | some Cell.nonStr => false
  | none => false

/-- First pass over one row's mapped columns: `(totalTasks, skippedTasks)`
contributions. -/
def colsCount (row : StudentRow) : List (String × String) → Nat × Nat
  | [] => (0, 0)
  | cf :: rest =>
    let acc := colsCount row rest
    if linkTaskOk (getCell row cf.1) then (acc.1 + 1, acc.2) else (acc.1, acc.2 + 1)

/-- First pass over one (possibly absent) row: a row without a registration
number counts one skipped task and its columns are not visited. -/
def rowCounts (config : DFConfig) (orow : Option StudentRow) : Nat × Nat :=
  match orow with
  | none => (0, 0)
  | some row =>
    match row.regNo with
    | none => (0, 1)
    | some _ => colsCount row config.columnMapping

/-- The counting loop of `processExcelFile` (lines 31–52): total download
tasks and skipped tasks over all rows. -/
def firstPass (config : DFConfig) : List (Option StudentRow) → Nat × Nat
  | [] => (0, 0)
  | orow :: rest =>
    let a := rowCounts config orow
    let b := firstPass config rest
    (a.1 + b.1, a.2 + b.2)

/-- The skipped result pushed for a row without a registration number
(`id: 'row-' + (i+1)`, `regNo: 'Row ' + (i+1)`). -/
def rowSkipResult (i : Nat) : DFResult :=
  ⟨"row-" ++ toString (i + 1), "Row " ++ toString (i + 1), "N/A", Status.skipped,
   "No registration number found", none, none, none, none⟩

/-- The skipped result pushed for a column without a usable link. -/
def colSkipResult (regNo col msg : String) : DFResult :=
  ⟨regNo ++ "-" ++ col, regNo, col, Status.skipped, msg, none, none, none, none⟩

/-- Second pass over one row's mapped columns: the skipped results pushed
immediately and the work items pushed onto the download queue, in column
order (translating lines 88–131). -/
def colsBuild (rn : String) (row : StudentRow) :
    List (String × String) → List DFResult × List TaskDesc
  | [] => ([], [])
  | cf :: rest =>
    let acc := colsBuild rn row rest
    match getCell row cf.1 with
    | none => (colSkipResult rn cf.1 "No link provided" :: acc.1, acc.2)
    | some Cell.nonStr => (colSkipResult rn cf.1 "No link provided" :: acc.1, acc.2)
    | some (Cell.strVal s) =>
      if s == "" then (colSkipResult rn cf.1 "No link provided" :: acc.1, acc.2)
      else if isValidGoogleDriveLink s then (acc.1, (⟨rn, cf.1, cf.2, s⟩ : TaskDesc) :: acc.2)
      else (colSkipResult rn cf.1 "Invalid Google Drive link" :: acc.1, acc.2)

/-- Second pass over one (possibly absent) row at data index `i`. -/
def rowBuild (config : DFConfig) (i : Nat) (orow : Option StudentRow) :
    List DFResult × List TaskDesc :=
  match orow with
  | none => ([], [])
  | some row =>
    match row.regNo with
    | none => ([rowSkipResult i], [])
    | some rn => colsBuild rn row config.columnMapping

/-- The queue-building loop of `processExcelFile` (lines 69–132): the skipped
results pushed synchronously, and the download queue, in row order. -/
def buildQueue (config : DFConfig) : Nat → List (Option StudentRow) → List DFResult × List TaskDesc
  | _, [] => ([], [])
  | i, orow :: rest =>
    let a := rowBuild config i orow
    let b := buildQueue config (i + 1) rest
    (a.1 ++ b.1, a.2 ++ b.2)

/-! ### Running the queue -/

/-- The derived percentage `(completedTasks / totalTasks) * 100` of a
progress event (JS floating division modelled exactly on the rationals). -/
def pctOf (cur total : Nat) : ℚ := ((cur : ℚ) / (total : ℚ)) * 100

/-- Executes the queued thunks: each runs `processDocument`, pushes its
result, increments `completedTasks` and emits a `document-fetcher:progress`
event whose percentage is `(completedTasks / totalTasks) * 100`.
`completed` is the value of `completedTasks` before this thunk runs; the
per-task environment is indexed by that counter. -/
def runTasks (jobId : String) (total : Nat) (envf : Nat → ItemEnv) :
    List TaskDesc → Nat → List DFResult × List DFEvent
  | [], _ => ([], [])
  | t :: ts, completed =>
    let rEv := processDocumentTraced jobId t (envf completed)
    let cur := completed + 1
    let pev := DFEvent.progress ⟨jobId, cur, total, pctOf cur total, rEv.1⟩
    let rest := runTasks jobId total envf ts cur
    (rEv.1 :: rest.1, rEv.2 ++ pev :: rest.2)

/-! ### `createZipArchive` -/

/-- Archive entries added by `createZipArchive`: one `(entryName, filePath)`
per result with `status === 'success'` and a truthy `filePath`, in result
order, named `basename(dirname(filePath)) + '/' + basename(filePath)`. -/
def createZipArchiveEntries : List DFResult → List (String × String)
  | [] => []
  | r :: rest =>
    let tail := createZipArchiveEntries rest
    match r.filePath with
    | some fp =>
      if r.status = Status.success ∧ fp ≠ "" then
        (basename (dirname fp) ++ "/" ++ basename fp, fp) :: tail
      else tail
    | none => tail

/-! ### `processExcelFile` and the background driver -/

/-- Environment of one batch: the outcome of the initial
`fs.ensureDir(DOWNLOAD_DIR)` (line 26, OUTSIDE the try block), the per-task
item environments indexed by execution order, and the outcome of the archive
finalization in `createZipArchive` (a rejection there is caught by the
service's `catch`).  `cleanupOldFiles` swallows its own errors and is
modelled as a no-op. -/
structure BatchEnv where
  ensureBase : Except String Unit
  item : Nat → ItemEnv
  zip : Except String Unit

/-- `processExcelFile(data, config, jobId, io)`: returns the settled results
(or the batch-level thrown error, which the service rethrows after emitting
`document-fetcher:error`), together with the emitted event trace in order. -/
def processExcelFile (data : List (Option StudentRow)) (config : DFConfig)
    (jobId : String) (env : BatchEnv) :
    Except String (List DFResult) × List DFEvent :=
  match env.ensureBase with
  | Except.error e => (Except.error e, [])
  | Except.ok _ =>
    let fp := firstPass config data
    let startEv := DFEvent.start ⟨jobId, data.length, fp.1, fp.2, fp.1⟩
    let bq := buildQueue config 0 data
    let queue := (chunksOf bq.2 (effectiveMaxConcurrent config.maxConcurrent).toNat).flatten
    let run := runTasks jobId fp.1 env.item queue 0
    let results := bq.1 ++ run.1
    match env.zip with
    | Except.error e =>
      (Except.error e, startEv :: (run.2 ++ [DFEvent.errEvent jobId e]))
    | Except.ok _ =>
      (Except.ok results,
       startEv :: (run.2 ++
         [DFEvent.complete ⟨jobId, run.1.length, fp.2, zipPathName jobId, results⟩]))

/-- `processDocumentsInBackground` from routes/documentFetcher.ts: emits its
own start event (payload: record count and raw config), awaits the service,
then either emits its own complete event (payload: the result array) or, in
its catch, a `document-fetcher:error` event. -/
def processDocumentsInBackground (data : List (Option StudentRow)) (config : DFConfig)
    (jobId : String) (env : BatchEnv) : List DFEvent :=
  let dStart := DFEvent.startDriver jobId data.length config
  let out := processExcelFile data config jobId env
  match out.1 with
  | Except.ok results => dStart :: (out.2 ++ [DFEvent.completeDriver jobId results])
  | Except.error e => dStart :: (out.2 ++ [DFEvent.errEvent jobId e])

/-! ### Socket broadcaster (socketHandlers.ts) -/

/-- The connected clients and room membership of the socket.io server, as the
emit helpers observe them. -/
structure IoServer where
  connected : List String
  roomMembers : String → List String

/-- The two addressing modes used by the emit helpers: `io.to(jobId)` and the
bare `io`. -/
inductive Audience
  | room (jobId : String)
  | all
deriving DecidableEq, Repr

/-- One `emit` call: to whom, under which event name, with which payload. -/
structure Emission (α : Type) where
  audience : Audience
  event : String
  payload : α
deriving DecidableEq, Repr

/-- The clients a single emission reaches. -/
def recipients (io : IoServer) : Audience → List String
  | Audience.room j => io.roomMembers j
  | Audience.all => io.connected

/-- `emitProgress(io, jobId, event, data)`:
`io.to(jobId).emit(event, data); io.emit(event, data)`. -/
def emitProgress {α : Type} (_io : IoServer) (jobId event : String) (data : α) :
    List (Emission α) :=
  [⟨Audience.room jobId, event, data⟩, ⟨Audience.all, event, data⟩]

/-- `emitCompletion(io, jobId, event, data)`: identical emission pattern. -/
def emitCompletion {α : Type} (_io : IoServer) (jobId event : String) (data : α) :
    List (Emission α) :=
  [⟨Audience.room jobId, event, data⟩, ⟨Audience.all, event, data⟩]

/-- A thrown JS value as `emitError` inspects it: an `Error` object with a
`.message` (and a string rendering of the object itself), or any other value
(rendered as itself). -/
inductive JsError
  | errObj (message : String) (raw : String)
  | other (raw : String)
deriving DecidableEq, Repr

/-- `error.message || error`: the message unless it is falsy (absent or
empty), in which case the raw value. -/
def errMessageOrSelf : JsError → String
  | JsError.errObj m raw => if m = "" then raw else m
  | JsError.other raw => raw

/-- The `errorData` record built by `emitError`. -/
structure ErrorPayload where
  jobId : String
  errText : String
deriving DecidableEq, Repr

/-- `emitError(io, jobId, event, error)`: builds `errorData` once and sends
it with the same dual room/broadcast pattern. -/
def emitError (_io : IoServer) (jobId event : String) (e : JsError) :
    List (Emission ErrorPayload) :=
  [⟨Audience.room jobId, event, ⟨jobId, errMessageOrSelf e⟩⟩,
   ⟨Audience.all, event, ⟨jobId, errMessageOrSelf e⟩⟩]

/-! ### Password generator: `createPassword` -/

/-- `PasswordConfig` as `createPassword` reads it.  `customChars` is the raw
string (`if (config.customChars)` treats the empty string as absent). -/
structure PasswordConfig where
  includeLowercase : Bool
  includeUppercase : Bool
  includeNumbers : Bool
  includeSymbols : Bool
  customChars : String
  excludeSimilar : Bool
  excludeAmbiguous : Bool
  length : Nat
deriving DecidableEq, Repr

/-- The symbol set `'!@#$%^&*()_+-=[]{}|;:,.<>?'`. -/
def symbolChars : List Char :=
  ['!', '@', '#', '$', '%', '^', '&', '*', '(', ')', '_', '+', '-', '=',
   '[', ']', '\x7b', '\x7d', '|', ';', ':', ',', '.', '<', '>', '?']

/-- The charset accumulated from the selected character classes and the
custom characters, before any exclusion filter. -/
def charsetOf (c : PasswordConfig) : List Char :=
  (if c.includeLowercase then "abcdefghijklmnopqrstuvwxyz".data else []) ++
  (if c.includeUppercase then "ABCDEFGHIJKLMNOPQRSTUVWXYZ".data else []) ++
  (if c.includeNumbers then "0123456789".data else []) ++
  (if c.includeSymbols then symbolChars else []) ++
  (if c.customChars == "" then [] else c.customChars.data)

/-- The class `[il1Lo0O]` removed by `excludeSimilar`. -/
def isSimilarChar (ch : Char) : Bool :=
  ch == 'i' || ch == 'l' || ch == '1' || ch == 'L' || ch == 'o' || ch == '0' || ch == 'O'

/-- The class of characters removed by `excludeAmbiguous`
(`/[{}[\]()\/\\~,;.<>]/`). -/
def isAmbiguousChar (ch : Char) : Bool :=
  ch == '\x7b' || ch == '\x7d' || ch == '[' || ch == ']' || ch == '(' || ch == ')' ||
  ch == '/' || ch == '\\' || ch == '~' || ch == ',' || ch == ';' || ch == '.' ||
  ch == '<' || ch == '>'

/-- The charset after the two optional `replace` filters. -/
def filteredCharset (c : PasswordConfig) : List Char :=
  let cs1 := if c.excludeSimilar then (charsetOf c).filter (fun ch => !(isSimilarChar ch))
             else charsetOf c
  if c.excludeAmbiguous then cs1.filter (fun ch => !(isAmbiguousChar ch)) else cs1

/-- The password-building loop.  `bytes i` is the random byte
`array[i]` (always defined for `i < config.length`).  In JS, when the
filtered charset is empty the index `arrayValue % 0` is `NaN` and
`charset[NaN]` is `undefined`, so nothing is appended; with a non-empty
charset `charset[arrayValue % length]` is a (truthy) one-character string
that is appended.  Both cases are captured by the `Option` lookup: for an
empty list every lookup misses, and `x % 0 = x` keeps the Nat model total. -/
def buildPwd (cs : List Char) (bytes : Nat → Nat) (len : Nat) : List Char :=
  (List.range len).foldl
    (fun acc i =>
      match cs.get? (bytes i % cs.length) with
      | some ch => acc ++ [ch]
      | none => acc)
    []

/-- `createPassword(config)` over the random bytes drawn by
`crypto.getRandomValues`: throws (as `Except.error`) when no character class
is selected, otherwise builds the password from the filtered charset. -/
def createPassword (c : PasswordConfig) (bytes : Nat → Nat) : Except String (List Char) :=
  if charsetOf c = [] then
    Except.error "At least one character type must be selected"
  else
    Except.ok (buildPwd (filteredCharset c) bytes c.length)

/-- Number of results carrying a given status. -/
def countStatus (l : List DFResult) (st : Status) : Nat :=
  l.countP (fun r => r.status == st)

/-- The events emitted inside `downloadFileWithProgress` (download telemetry,
not batch lifecycle). -/
def isDlEvent : DFEvent → Bool
  | DFEvent.dlStart _ _ _ _ => true
  | DFEvent.dlComplete _ _ _ _ => true
  | DFEvent.dlError _ _ _ _ => true
  | _ => false

/-- The `document-fetcher:progress` events. -/
def isProgressEvent : DFEvent → Bool
  | DFEvent.progress _ => true
  | _ => false

/-- Truthiness of `result.filePath` in the archive loop. -/
def pathPopulated (r : DFResult) : Bool :=
  match r.filePath with
  | some fp => !(fp == "")
  | none => false

/-- The archive entry name `createZipArchive` derives from a file path. -/
def zipEntryName (fp : String) : String :=
  basename (dirname fp) ++ "/" ++ basename fp

/-! ### Concrete fixtures used by witnesses and counterexamples -/

/-- A well-formed Drive link with an extractable file id. -/
def driveLink : String := "https://drive.google.com/file/d/abc123/view"

/-- A link that `isValidGoogleDriveLink` accepts (hostname `drive.google.com`
and a `/uc?` segment) but from which `extractFileId` can extract no id. -/
def ucLink : String := "https://drive.google.com/uc?export=download"

/-- Item environment where every operation succeeds. -/
def itemEnvOk : ItemEnv := ⟨Except.ok (), DlOutcome.finish "application/pdf", Except.ok 5⟩

/-- Item environment whose write stream errors. -/
def itemEnvWriteFail : ItemEnv := ⟨Except.ok (), DlOutcome.writeErr "ECONNRESET", Except.ok 0⟩

/-- Batch environment where every operation succeeds. -/
def batchEnvOk : BatchEnv := ⟨Except.ok (), fun _ => itemEnvOk, Except.ok ()⟩

/-- Batch environment whose initial `fs.ensureDir(DOWNLOAD_DIR)` (before the
service's try block and start event) throws. -/
def batchEnvNoDir : BatchEnv :=
  ⟨Except.error "ENOSPC: no space left on device", fun _ => itemEnvOk, Except.ok ()⟩

/-- A one-column configuration. -/
def cfgPhoto : DFConfig := ⟨[("Photo", "photos")], none⟩

/-- A row holding a valid Drive link in the mapped column. -/
def rowPhoto : Option StudentRow := some ⟨some "R1", [("Photo", Cell.strVal driveLink)]⟩

/-- The result `processDocument` produces for `rowPhoto` under `itemEnvOk`. -/
def resPhoto : DFResult :=
  ⟨"R1-Photo", "R1", "Photo", Status.success, "Downloaded successfully",
   some "downloads/photos/R1_Photo.pdf", some "R1_Photo.pdf", some 5, none⟩

/-- Config whose custom characters are all removed by `excludeSimilar`. -/
def pwdCfgZero : PasswordConfig := ⟨false, false, false, false, "0", true, false, 5⟩

/-! ### Lifecycle-event predicates (for the double-emission claim) -/

/-- The service's `document-fetcher:start` emission. -/
def isServiceStart : DFEvent → Bool
  | DFEvent.start _ => true
  | _ => false

/-- The background driver's `document-fetcher:start` emission. -/
def isDriverStart : DFEvent → Bool
  | DFEvent.startDriver _ _ _ => true
  | _ => false

/-- The service's `document-fetcher:complete` emission. -/
def isServiceComplete : DFEvent → Bool
  | DFEvent.complete _ => true
  | _ => false

/-- The background driver's `document-fetcher:complete` emission. -/
def isDriverComplete : DFEvent → Bool
  | DFEvent.completeDriver _ _ => true
  | _ => false

/-- A `document-fetcher:error` emission (service and driver use the same
event name and payload shape). -/
def isErrorEv : DFEvent → Bool
  | DFEvent.errEvent _ _ => true
  | _ => false

/-- Number of events in a trace matching a predicate. -/
def countEv (f : DFEvent → Bool) (evs : List DFEvent) : Nat := evs.countP f

/-- The progress payload emitted for the single item of `rowPhoto`. -/
def pPhoto : ProgressPayload := ⟨"j", 1, 1, pctOf 1 1, resPhoto⟩

/-! ### Lemmas about the chunk partition -/

lemma chunksOfAux_fuel {α : Type} (k : Nat) (hk : 0 < k) :
    ∀ (f1 f2 : Nat) (l : List α), l.length ≤ f1 → l.length ≤ f2 →
      chunksOfAux k f1 l = chunksOfAux k f2 l := by
  intro f1
  induction f1 with
  | zero =>
    intro f2 l h1 _
    have hl : l = [] := by
      cases l with
      | nil => rfl
      | cons x xs => simp at h1
    subst hl
    cases f2 <;> rfl
  | succ f1 ih =>
    intro f2 l h1 h2
    cases l with
    | nil => cases f2 <;> rfl
    | cons x xs =>
      cases f2 with
      | zero => simp at h2
      | succ f2 =>
        simp only [chunksOfAux]
        congr 1
        apply ih
        · simp only [List.length_drop, List.length_cons] at *
          omega
        · simp only [List.length_drop, List.length_cons] at *
          omega

lemma chunksOf_nil {α : Type} (k : Nat) : chunksOf ([] : List α) k = [] := rfl

lemma chunksOf_cons {α : Type} (k : Nat) (hk : 0 < k) (l : List α) (hl : l ≠ []) :
    chunksOf l k = l.take k :: chunksOf (l.drop k) k := by
  cases l with
  | nil => exact absurd rfl hl
  | cons x xs =>
    show chunksOfAux k (xs.length + 1) (x :: xs) = _
    simp only [chunksOfAux]
    congr 1
    apply chunksOfAux_fuel k hk
    · simp only [List.length_drop, List.length_cons]
      omega
    · exact le_rfl

lemma chunksOf_rec {α : Type} (k : Nat) (hk : 0 < k) (P : List α → Prop)
    (hnil : P []) (hstep : ∀ l : List α, l ≠ [] → P (l.drop k) → P l) :
    ∀ l : List α, P l := by
  have main : ∀ (n : Nat) (l : List α), l.length ≤ n → P l := by
    intro n
    induction n with
    | zero =>
      intro l h
      cases l with
      | nil => exact hnil
      | cons x xs => simp at h
    | succ n ih =>
      intro l h
      cases l with
      | nil => exact hnil
      | cons x xs =>
        refine hstep (x :: xs) (by simp) (ih _ ?_)
        simp only [List.length_drop, List.length_cons] at *
        omega
  exact fun l => main l.length l le_rfl

lemma chunksOf_flatten {α : Type} (k : Nat) (hk : 0 < k) (l : List α) :
    (chunksOf l k).flatten = l := by
  induction l using chunksOf_rec k hk with
  | hnil => rfl
  | hstep l hl ih =>
    rw [chunksOf_cons k hk l hl, List.flatten_cons, ih, List.take_append_drop]

lemma chunksOf_length {α : Type} (k : Nat) (hk : 0 < k) (l : List α) :
    (chunksOf l k).length = (l.length + k - 1) / k := by
  induction l using chunksOf_rec k hk with
  | hnil =>
    simp only [chunksOf_nil, List.length_nil, List.length, Nat.zero_add]
    exact (Nat.div_eq_of_lt (by omega)).symm
  | hstep l hl ih =>
    rw [chunksOf_cons k hk l hl]
    have hlen : 0 < l.length := List.length_pos.2 hl
    simp only [List.length_cons, ih, List.length_drop]
    rcases le_or_lt k l.length with hle | hlt
    · have h1 : l.length - k + k - 1 = l.length - 1 := by omega
      have h2 : l.length + k - 1 = (l.length - 1) + k := by omega
      rw [h1, h2, Nat.add_div_right _ hk]
    · have h1 : l.length - k = 0 := by omega
      have h2 : (0 + k - 1) / k = 0 := Nat.div_eq_of_lt (by omega)
      rw [h1, h2]
      have h3 : (l.length + k - 1) / k = 1 := by
        apply Nat.div_eq_of_lt_le <;> omega
      omega

lemma chunksOf_mem {α : Type} (k : Nat) (hk : 0 < k) (l : List α) :
    ∀ c ∈ chunksOf l k, c ≠ [] ∧ c.length ≤ k := by
  induction l using chunksOf_rec k hk with
  | hnil => simp [chunksOf_nil]
  | hstep l hl ih =>
    rw [chunksOf_cons k hk l hl]
    intro c hc
    rcases List.mem_cons.1 hc with hc | hc
    · subst hc
      constructor
      · simp only [ne_eq, List.take_eq_nil_iff]
        push_neg
        exact ⟨by omega, hl⟩
      · simp only [List.length_take]
        omega
    · exact ih c hc

lemma chunksOf_dropLast {α : Type} (k : Nat) (hk : 0 < k) (l : List α) :
    ∀ c ∈ (chunksOf l k).dropLast, c.length = k := by
  induction l using chunksOf_rec k hk with
  | hnil => simp [chunksOf_nil]
  | hstep l hl ih =>
    rw [chunksOf_cons k hk l hl]
    rcases le_or_lt l.length k with hle | hlt
    · have hdr : l.drop k = [] := List.drop_eq_nil_of_le hle
      simp [hdr, chunksOf_nil]
    · have hdr : l.drop k ≠ [] := by
        simp only [ne_eq, List.drop_eq_nil_iff]
        omega
      have hcn : chunksOf (l.drop k) k ≠ [] := by
        rw [chunksOf_cons k hk _ hdr]
        simp
      rw [List.dropLast_cons_of_ne_nil hcn]
      intro c hc
      rcases List.mem_cons.1 hc with hc | hc
      · subst hc
        simp only [List.length_take]
        omega
      · exact ih c hc

lemma chunksOf_dvd {α : Type} (k : Nat) (hk : 0 < k) (l : List α) :
    k ∣ l.length → ∀ c ∈ chunksOf l k, c.length = k := by
  induction l using chunksOf_rec k hk with
  | hnil => simp [chunksOf_nil]
  | hstep l hl ih =>
    intro hd c hc
    have hlen : 0 < l.length := List.length_pos.2 hl
    have hle : k ≤ l.length := Nat.le_of_dvd hlen hd
    rw [chunksOf_cons k hk l hl] at hc
    rcases List.mem_cons.1 hc with hc | hc
    · subst hc
      simp only [List.length_take]
      omega
    · refine ih ?_ c hc
      simp only [List.length_drop]
      exact (Nat.dvd_sub' hd dvd_rfl)

lemma chunksOf_single {α : Type} (k : Nat) (hk : 0 < k) (l : List α)
    (hne : l ≠ []) (hle : l.length ≤ k) : chunksOf l k = [l] := by
  rw [chunksOf_cons k hk l hne, List.take_of_length_le hle,
      List.drop_eq_nil_of_le hle, chunksOf_nil]

lemma chunksOfAux_zero_flatten {α : Type} :
    ∀ (fuel : Nat) (l : List α), (chunksOfAux 0 fuel l).flatten = [] := by
  intro fuel
  induction fuel with
  | zero => intro l; cases l <;> rfl
  | succ fuel ih =>
    intro l
    cases l with
    | nil => rfl
    | cons x xs =>
      simp only [chunksOfAux, List.take_zero, List.drop_zero, List.flatten_cons,
        List.nil_append]
      exact ih (x :: xs)

lemma chunksOf_flatten_length_le {α : Type} (l : List α) (m : Nat) :
    (chunksOf l m).flatten.length ≤ l.length := by
  cases m with
  | zero =>
    rw [show chunksOf l 0 = chunksOfAux 0 l.length l from rfl, chunksOfAux_zero_flatten]
    simp
  | succ m =>
    rw [chunksOf_flatten (m + 1) (Nat.succ_pos m) l]

/-! ### The literal loop agrees with the partition for positive chunk sizes,
and diverges for non-positive ones -/

lemma jsSlice_nat {α : Type} (l : List α) (n k : Nat) :
    jsSlice l (n : Int) ((n : Int) + (k : Int)) = (l.drop n).take k := by
  have hn : ¬((n : Int) < 0) := by omega
  have hnk : ¬((n : Int) + (k : Int) < 0) := by omega
  have hs : (min (n : Int) (l.length : Int)).toNat = min n l.length := by omega
  have he : (min ((n : Int) + (k : Int)) (l.length : Int)).toNat = min (n + k) l.length := by
    omega
  simp only [jsSlice, if_neg hn, if_neg hnk, hs, he]
  rcases le_or_lt n l.length with hle | hlt
  · have hmin : min n l.length = n := by omega
    rw [hmin, List.drop_take]
    have : min (n + k) l.length - n = min k (l.length - n) := by omega
    rw [this]
    rcases le_or_lt k (l.length - n) with h2 | h2
    · rw [min_eq_left h2]
    · rw [min_eq_right (by omega)]
      have hdl : (l.drop n).length = l.length - n := List.length_drop n l
      rw [← hdl, List.take_length, List.take_of_length_le (by omega)]
  · have hmin : min n l.length = l.length := by omega
    rw [hmin]
    have h1 : (l.take (min (n + k) l.length)).length ≤ l.length := by
      simp only [List.length_take]
      omega
    rw [List.drop_eq_nil_of_le h1, List.drop_eq_nil_of_le (by omega), List.take_nil]

lemma chunkLoopFuel_inv {α : Type} (l : List α) (k : Nat) (hk : 0 < k) :
    ∀ (fuel n : Nat) (acc : List (List α)), l.length - n < fuel →
      chunkLoopFuel l (k : Int) fuel (n : Int) acc = some (acc ++ chunksOf (l.drop n) k) := by
  intro fuel
  induction fuel with
  | zero => intro n acc h; omega
  | succ fuel ih =>
    intro n acc h
    rcases lt_or_le n l.length with hlt | hle
    · have hc : (n : Int) < (l.length : Int) := by omega
      have hcast : (n : Int) + (k : Int) = ((n + k : Nat) : Int) := by push_cast; ring
      rw [chunkLoopFuel, if_pos hc, jsSlice_nat, hcast,
          ih (n + k) (acc ++ [(l.drop n).take k]) (by omega)]
      have hdr : l.drop n ≠ [] := by
        simp only [ne_eq, List.drop_eq_nil_iff]
        omega
      rw [chunksOf_cons k hk (l.drop n) hdr, List.drop_drop]
      simp
    · have hc : ¬((n : Int) < (l.length : Int)) := by omega
      rw [chunkLoopFuel, if_neg hc, List.drop_eq_nil_of_le hle, chunksOf_nil,
          List.append_nil]

/-- For any positive chunk size the literal loop of `processDownloadQueue`
terminates (any fuel beyond the queue length suffices) and produces exactly
the `chunksOf` partition. -/
lemma chunkLoopFuel_eq_chunksOf {α : Type} (l : List α) (k : Nat) (hk : 0 < k)
    (fuel : Nat) (hf : l.length < fuel) :
    chunkLoopFuel l (k : Int) fuel 0 [] = some (chunksOf l k) := by
  have h := chunkLoopFuel_inv l k hk fuel 0 [] (by omega)
  simpa using h

lemma chunkLoop_neg_one_diverges {α : Type} (x : α) :
    ∀ (fuel : Nat) (i : Int), i ≤ 0 → ∀ acc : List (List α),
      chunkLoopFuel [x] (-1) fuel i acc = none := by
  intro fuel
  induction fuel with
  | zero => intro i _ acc; rfl
  | succ fuel ih =>
    intro i hi acc
    have hc : i < (([x] : List α).length : Int) := by simp; omega
    rw [chunkLoopFuel, if_pos hc]
    exact ih (i + -1) (by omega) _


/-! ### First pass and second pass agree -/

lemma colsBuild_counts (rn : String) (row : StudentRow) :
    ∀ cm : List (String × String),
      (colsCount row cm).1 = (colsBuild rn row cm).2.length ∧
      (colsCount row cm).2 = (colsBuild rn row cm).1.length := by
  intro cm
  induction cm with
  | nil => simp [colsCount, colsBuild]
  | cons cf rest ih =>
    obtain ⟨ih1, ih2⟩ := ih
    cases h : getCell row cf.1 with
    | none =>
      simp only [colsCount, colsBuild, linkTaskOk, h, Bool.false_eq_true, if_false,
        List.length_cons]
      omega
    | some cell =>
      cases cell with
      | nonStr =>
        simp only [colsCount, colsBuild, linkTaskOk, h, Bool.false_eq_true, if_false,
          List.length_cons]
        omega
      | strVal s =>
        by_cases hs : (s == "") = true
        · simp only [colsCount, colsBuild, linkTaskOk, h, hs, Bool.not_true,
            Bool.false_and, Bool.false_eq_true, if_false, if_true, List.length_cons]
          omega
        · rw [Bool.not_eq_true] at hs
          by_cases hv : isValidGoogleDriveLink s = true
          · simp only [colsCount, colsBuild, linkTaskOk, h, hs, hv, Bool.not_false,
              Bool.true_and, if_true, Bool.false_eq_true, if_false, List.length_cons]
            omega
          · rw [Bool.not_eq_true] at hv
            simp only [colsCount, colsBuild, linkTaskOk, h, hs, hv, Bool.not_false,
              Bool.true_and, Bool.false_eq_true, if_false, List.length_cons]
            omega

lemma rowBuild_counts (config : DFConfig) (i : Nat) (orow : Option StudentRow) :
    (rowCounts config orow).1 = (rowBuild config i orow).2.length ∧
    (rowCounts config orow).2 = (rowBuild config i orow).1.length := by
  cases orow with
  | none => simp [rowCounts, rowBuild]
  | some row =>
    cases h : row.regNo with
    | none => simp [rowCounts, rowBuild, h]
    | some rn =>
      simp only [rowCounts, rowBuild, h]
      exact colsBuild_counts rn row config.columnMapping

lemma buildQueue_counts (config : DFConfig) :
    ∀ (data : List (Option StudentRow)) (i : Nat),
      (firstPass config data).1 = (buildQueue config i data).2.length ∧
      (firstPass config data).2 = (buildQueue config i data).1.length := by
  intro data
  induction data with
  | nil => intro i; simp [firstPass, buildQueue]
  | cons orow rest ih =>
    intro i
    have h1 := rowBuild_counts config i orow
    have h2 := ih (i + 1)
    simp only [firstPass, buildQueue, List.length_append]
    omega

/-! ### Statuses of the produced results -/

lemma colsBuild_skipped (rn : String) (row : StudentRow) :
    ∀ (cm : List (String × String)) (r : DFResult),
      r ∈ (colsBuild rn row cm).1 → r.status = Status.skipped := by
  intro cm
  induction cm with
  | nil => simp [colsBuild]
  | cons cf rest ih =>
    intro r hr
    cases h : getCell row cf.1 with
    | none =>
      simp only [colsBuild, h, List.mem_cons] at hr
      rcases hr with hr | hr
      · subst hr; rfl
      · exact ih r hr
    | some cell =>
      cases cell with
      | nonStr =>
        simp only [colsBuild, h, List.mem_cons] at hr
        rcases hr with hr | hr
        · subst hr; rfl
        · exact ih r hr
      | strVal s =>
        by_cases hs : (s == "") = true
        · simp only [colsBuild, h, hs, if_true, List.mem_cons] at hr
          rcases hr with hr | hr
          · subst hr; rfl
          · exact ih r hr
        · rw [Bool.not_eq_true] at hs
          by_cases hv : isValidGoogleDriveLink s = true
          · simp only [colsBuild, h, hs, hv, Bool.false_eq_true, if_false, if_true] at hr
            exact ih r hr
          · rw [Bool.not_eq_true] at hv
            simp only [colsBuild, h, hs, hv, Bool.false_eq_true, if_false,
              List.mem_cons] at hr
            rcases hr with hr | hr
            · subst hr; rfl
            · exact ih r hr

lemma buildQueue_skipped (config : DFConfig) :
    ∀ (data : List (Option StudentRow)) (i : Nat) (r : DFResult),
      r ∈ (buildQueue config i data).1 → r.status = Status.skipped := by
  intro data
  induction data with
  | nil => simp [buildQueue]
  | cons orow rest ih =>
    intro i r hr
    simp only [buildQueue] at hr
    rcases List.mem_append.1 hr with hr | hr
    · cases orow with
      | none => simp [rowBuild] at hr
      | some row =>
        cases h : row.regNo with
        | none =>
          simp only [rowBuild, h, List.mem_singleton] at hr
          subst hr; rfl
        | some rn =>
          simp only [rowBuild, h] at hr
          exact colsBuild_skipped rn row config.columnMapping r hr
    · exact ih (i + 1) r hr

lemma processDocumentTraced_status (jobId : String) (t : TaskDesc) (env : ItemEnv) :
    (processDocumentTraced jobId t env).1.status = Status.success ∨
    (processDocumentTraced jobId t env).1.status = Status.failed := by
  unfold processDocumentTraced
  cases hx : extractFileId t.link with
  | none => exact Or.inr rfl
  | some fid =>
    cases he : env.ensureDir with
    | error m => exact Or.inr rfl
    | ok u =>
      simp only []
      split
      · cases hs : env.stat with
        | error m => exact Or.inr rfl
        | ok sz => exact Or.inl rfl
      · exact Or.inr rfl

lemma runTasks_results (jobId : String) (total : Nat) (envf : Nat → ItemEnv) :
    ∀ (ts : List TaskDesc) (c : Nat),
      (runTasks jobId total envf ts c).1.length = ts.length ∧
      ∀ r ∈ (runTasks jobId total envf ts c).1,
        r.status = Status.success ∨ r.status = Status.failed := by
  intro ts
  induction ts with
  | nil => intro c; simp [runTasks]
  | cons t rest ih =>
    intro c
    simp only [runTasks, List.length_cons]
    refine ⟨by rw [(ih (c + 1)).1], ?_⟩
    intro r hr
    rcases List.mem_cons.1 hr with hr | hr
    · subst hr
      exact processDocumentTraced_status jobId t (envf c)
    · exact (ih (c + 1)).2 r hr

/-! ### Counting statuses -/

lemma countStatus_nil (st : Status) : countStatus [] st = 0 := rfl

lemma countStatus_append (l1 l2 : List DFResult) (st : Status) :
    countStatus (l1 ++ l2) st = countStatus l1 st + countStatus l2 st :=
  List.countP_append _ _ _

lemma countStatus_all (l : List DFResult) (st : Status)
    (h : ∀ r ∈ l, r.status = st) : countStatus l st = l.length := by
  induction l with
  | nil => rfl
  | cons r rest ih =>
    have hr : r.status = st := h r (List.mem_cons_self r rest)
    have hrec := ih (fun x hx => h x (List.mem_cons_of_mem r hx))
    simp only [countStatus, List.countP_cons, List.length_cons] at *
    simp [hr, hrec]

lemma countStatus_none (l : List DFResult) (st : Status)
    (h : ∀ r ∈ l, r.status ≠ st) : countStatus l st = 0 := by
  rw [countStatus, List.countP_eq_zero]
  intro r hr
  simp only [beq_iff_eq]
  exact h r hr

lemma countStatus_partition (l : List DFResult)
    (h : ∀ r ∈ l, r.status = Status.success ∨ r.status = Status.failed ∨
      r.status = Status.skipped) :
    countStatus l Status.success + countStatus l Status.failed +
      countStatus l Status.skipped = l.length := by
  induction l with
  | nil => rfl
  | cons r rest ih =>
    have hr := h r (List.mem_cons_self r rest)
    have hrec := ih (fun x hx => h x (List.mem_cons_of_mem r hx))
    simp only [countStatus, List.countP_cons, List.length_cons] at *
    rcases hr with hr | hr | hr <;> simp [hr] <;> omega

/-! ### Shapes of the events emitted while running the queue -/

lemma downloadModel_events (jobId fid filePath origUrl regNo col : String) (env : ItemEnv) :
    ∀ e ∈ (downloadModel jobId fid filePath origUrl regNo col env).2, isDlEvent e = true := by
  intro e he
  cases hd : env.download <;>
    simp only [downloadModel, hd, List.mem_cons, List.mem_singleton,
      List.not_mem_nil, or_false] at he <;>
    rcases he with he | he <;> subst he <;> rfl

lemma processDocumentTraced_events (jobId : String) (t : TaskDesc) (env : ItemEnv) :
    ∀ e ∈ (processDocumentTraced jobId t env).2, isDlEvent e = true := by
  intro e he
  unfold processDocumentTraced at he
  cases hx : extractFileId t.link with
  | none => simp [hx] at he
  | some fid =>
    rw [hx] at he
    cases hd : env.ensureDir with
    | error m => simp [hd] at he
    | ok u =>
      rw [hd] at he
      simp only [] at he
      revert he
      split
      · cases hs : env.stat with
        | error m =>
          intro he
          exact downloadModel_events _ _ _ _ _ _ env e he
        | ok sz =>
          intro he
          exact downloadModel_events _ _ _ _ _ _ env e he
      · intro he
        exact downloadModel_events _ _ _ _ _ _ env e he

/-- Every event emitted while running the queue is download telemetry or an
item progress event — never a start, complete or error event. -/
lemma runTasks_events (jobId : String) (total : Nat) (envf : Nat → ItemEnv) :
    ∀ (ts : List TaskDesc) (c : Nat) (e : DFEvent),
      e ∈ (runTasks jobId total envf ts c).2 →
      isDlEvent e = true ∨ isProgressEvent e = true := by
  intro ts
  induction ts with
  | nil => simp [runTasks]
  | cons t rest ih =>
    intro c e he
    simp only [runTasks] at he
    rcases List.mem_append.1 he with he | he
    · exact Or.inl (processDocumentTraced_events jobId t (envf c) e he)
    · rcases List.mem_cons.1 he with he | he
      · subst he
        exact Or.inr rfl
      · exact ih (c + 1) e he

lemma runTasks_progress (jobId : String) (total : Nat) (envf : Nat → ItemEnv) :
    ∀ (ts : List TaskDesc) (c : Nat) (p : ProgressPayload),
      DFEvent.progress p ∈ (runTasks jobId total envf ts c).2 →
      p.jobId = jobId ∧ p.total = total ∧ c + 1 ≤ p.current ∧ p.current ≤ c + ts.length ∧
      p.progressPct = ((p.current : ℚ) / (total : ℚ)) * 100 ∧
      (runTasks jobId total envf ts c).1.get? (p.current - c - 1) = some p.result := by
  intro ts
  induction ts with
  | nil => simp [runTasks]
  | cons t rest ih =>
    intro c p hp
    simp only [runTasks] at hp ⊢
    rcases List.mem_append.1 hp with hp | hp
    · have := processDocumentTraced_events jobId t (envf c) _ hp
      simp [isDlEvent] at this
    · rcases List.mem_cons.1 hp with hp | hp
      · rw [DFEvent.progress.injEq] at hp
        subst hp
        have h0 : c + 1 - c - 1 = 0 := by omega
        exact ⟨rfl, rfl, le_rfl, by simp, rfl, by simp [h0]⟩
      · obtain ⟨h1, h2, h3, h4, h5, h6⟩ := ih (c + 1) p hp
        refine ⟨h1, h2, by omega, by simp only [List.length_cons]; omega, h5, ?_⟩
        have hidx : p.current - c - 1 = (p.current - (c + 1) - 1) + 1 := by omega
        rw [hidx]
        simpa using h6

/-! ### Lemmas about `createZipArchive` -/

lemma zipEntries_sound :
    ∀ (results : List DFResult) (e : String × String),
      e ∈ createZipArchiveEntries results →
      ∃ r ∈ results, r.status = Status.success ∧
        ∃ fp, r.filePath = some fp ∧ fp ≠ "" ∧ e = (zipEntryName fp, fp) := by
  intro results
  induction results with
  | nil => simp [createZipArchiveEntries]
  | cons r rest ih =>
    intro e he
    simp only [createZipArchiveEntries] at he
    cases hfp : r.filePath with
    | none =>
      simp only [hfp] at he
      obtain ⟨x, hx, hrest⟩ := ih e he
      exact ⟨x, List.mem_cons_of_mem r hx, hrest⟩
    | some fp =>
      simp only [hfp] at he
      by_cases hc : r.status = Status.success ∧ fp ≠ ""
      · rw [if_pos hc] at he
        rcases List.mem_cons.1 he with he | he
        · subst he
          exact ⟨r, List.mem_cons_self r rest, hc.1, fp, hfp, hc.2, rfl⟩
        · obtain ⟨x, hx, hrest⟩ := ih e he
          exact ⟨x, List.mem_cons_of_mem r hx, hrest⟩
      · rw [if_neg hc] at he
        obtain ⟨x, hx, hrest⟩ := ih e he
        exact ⟨x, List.mem_cons_of_mem r hx, hrest⟩

lemma zipEntries_complete :
    ∀ (results : List DFResult) (r : DFResult), r ∈ results →
      r.status = Status.success → ∀ fp, r.filePath = some fp → fp ≠ "" →
      (zipEntryName fp, fp) ∈ createZipArchiveEntries results := by
  intro results
  induction results with
  | nil => simp
  | cons x rest ih =>
    intro r hr hst fp hfp hne
    rcases List.mem_cons.1 hr with hr | hr
    · subst hr
      simp only [createZipArchiveEntries, hfp]
      rw [if_pos (show r.status = Status.success ∧ fp ≠ "" from ⟨hst, hne⟩)]
      exact List.mem_cons_self _ _
    · have hmem := ih r hr hst fp hfp hne
      simp only [createZipArchiveEntries]
      cases hx : x.filePath with
      | none => exact hmem
      | some fq =>
        simp only []
        by_cases hc : x.status = Status.success ∧ fq ≠ ""
        · rw [if_pos hc]
          exact List.mem_cons_of_mem _ hmem
        · rw [if_neg hc]
          exact hmem

lemma zipEntries_count :
    ∀ results : List DFResult,
      (createZipArchiveEntries results).length =
        results.countP (fun r => r.status == Status.success && pathPopulated r) := by
  intro results
  induction results with
  | nil => rfl
  | cons r rest ih =>
    simp only [createZipArchiveEntries, List.countP_cons]
    cases hfp : r.filePath with
    | none =>
      have hb : (r.status == Status.success && pathPopulated r) = false := by
        simp [pathPopulated, hfp]
      simp only [hfp, hb, Bool.false_eq_true, if_false, ih]
      omega
    | some fp =>
      by_cases hc : r.status = Status.success ∧ fp ≠ ""
      · have hb : (r.status == Status.success && pathPopulated r) = true := by
          simp [pathPopulated, hfp, hc.1, hc.2]
        simp only [hfp, if_pos hc, List.length_cons, ih, hb, if_pos rfl]
        simp
      · have hb : (r.status == Status.success && pathPopulated r) = false := by
          rcases not_and_or.1 hc with hns | hne
          · simp [hns]
          · push_neg at hne
            simp [pathPopulated, hfp, hne]
        simp only [hfp, if_neg hc, ih, hb, Bool.false_eq_true, if_false]
        omega

/-! ### Lemmas about `createPassword` -/

lemma buildPwd_nil (bytes : Nat → Nat) (len : Nat) : buildPwd [] bytes len = [] := by
  have key : ∀ (l : List Nat) (acc : List Char),
      l.foldl (fun acc i =>
        match ([] : List Char).get? (bytes i % ([] : List Char).length) with
        | some ch => acc ++ [ch]
        | none => acc) acc = acc := by
    intro l
    induction l with
    | nil => intro acc; rfl
    | cons x xs ih => intro acc; exact ih acc
  exact key (List.range len) []

lemma buildPwd_pos (cs : List Char) (bytes : Nat → Nat) (len : Nat) (h : cs ≠ []) :
    (buildPwd cs bytes len).length = len ∧ ∀ ch ∈ buildPwd cs bytes len, ch ∈ cs := by
  have hpos : 0 < cs.length := List.length_pos.2 h
  have key : ∀ (l : List Nat) (acc : List Char),
      l.foldl (fun acc i =>
        match cs.get? (bytes i % cs.length) with
        | some ch => acc ++ [ch]
        | none => acc) acc =
      acc ++ l.map (fun i => cs.get ⟨bytes i % cs.length, Nat.mod_lt _ hpos⟩) := by
    intro l
    induction l with
    | nil => intro acc; simp
    | cons x xs ih =>
      intro acc
      rw [List.foldl_cons, List.map_cons]
      have hget : cs.get? (bytes x % cs.length) =
          some (cs.get ⟨bytes x % cs.length, Nat.mod_lt _ hpos⟩) :=
        List.get?_eq_get (Nat.mod_lt _ hpos)
      rw [hget, ih]
      simp
  constructor
  · rw [buildPwd, key]
    simp
  · intro ch hch
    rw [buildPwd, key] at hch
    simp only [List.nil_append, List.mem_map, List.mem_range] at hch
    obtain ⟨i, _, hi⟩ := hch
    rw [← hi]
    exact List.get_mem cs _ _

lemma lifecycle_false_of_dl_or_progress (e : DFEvent)
    (h : isDlEvent e = true ∨ isProgressEvent e = true) :
    isDriverStart e = false ∧ isServiceStart e = false ∧ isDriverComplete e = false ∧
    isServiceComplete e = false ∧ isErrorEv e = false := by
  cases e <;>
    simp [isDlEvent, isProgressEvent, isDriverStart, isServiceStart, isDriverComplete,
      isServiceComplete, isErrorEv] at h ⊢

lemma runTasks_no_lifecycle (jobId : String) (total : Nat) (envf : Nat → ItemEnv)
    (ts : List TaskDesc) (c : Nat) (f : DFEvent → Bool)
    (hf : ∀ e, (isDlEvent e = true ∨ isProgressEvent e = true) → f e = false) :
    countEv f (runTasks jobId total envf ts c).2 = 0 := by
  rw [countEv, List.countP_eq_zero]
  intro e he
  rw [hf e (runTasks_events jobId total envf ts c e he)]
  simp

/-! ### Claim theorems -/

/-- C2: for every queue and every positive `maxConcurrent = k`, the scheduler
partitions the queue into exactly `⌈N/k⌉` consecutive chunks, each non-empty
of size at most `k`, all but possibly the last of size exactly `k`, whose
in-order concatenation is the original queue (chunks are awaited strictly in
this order, so all thunks of one chunk settle before the next chunk starts);
1000 items with `k = 20` give exactly 50 chunks, all of size 20; when
`k ≥ N > 0` the whole queue is a single chunk; and the literal loop of
`processDownloadQueue` terminates and computes exactly this partition. -/
theorem c2_scheduler_chunks {α : Type} (queue : List α) (k : Nat) (hk : 0 < k) :
    (chunksOf queue k).length = (queue.length + k - 1) / k ∧
    (chunksOf queue k).flatten = queue ∧
    (∀ c ∈ chunksOf queue k, c ≠ [] ∧ c.length ≤ k) ∧
    (∀ c ∈ (chunksOf queue k).dropLast, c.length = k) ∧
    (queue.length = 1000 → k = 20 →
      (chunksOf queue k).length = 50 ∧ ∀ c ∈ chunksOf queue k, c.length = 20) ∧
    (queue ≠ [] → queue.length ≤ k → chunksOf queue k = [queue]) ∧
    (∀ fuel, queue.length < fuel →
      chunkLoopFuel queue (k : Int) fuel 0 [] = some (chunksOf queue k)) := by
  refine ⟨chunksOf_length k hk queue, chunksOf_flatten k hk queue, chunksOf_mem k hk queue,
    chunksOf_dropLast k hk queue, ?_, fun hne hle => chunksOf_single k hk queue hne hle,
    fun fuel hf => chunkLoopFuel_eq_chunksOf queue k hk fuel hf⟩
  intro h1000 hk20
  subst hk20
  constructor
  · rw [chunksOf_length 20 hk queue, h1000]
  · exact chunksOf_dvd 20 hk queue (by rw [h1000]; norm_num)

theorem c2_scheduler_chunks_witness :
    (0 : Nat) < 2 ∧
    ((chunksOf [0, 1, 2] 2).length = (([0, 1, 2] : List Nat).length + 2 - 1) / 2 ∧
     (chunksOf [0, 1, 2] 2).flatten = [0, 1, 2] ∧
     (∀ c ∈ chunksOf [0, 1, 2] 2, c ≠ [] ∧ c.length ≤ 2) ∧
     (∀ c ∈ (chunksOf [0, 1, 2] 2).dropLast, c.length = 2) ∧
     (([0, 1, 2] : List Nat).length = 1000 → 2 = 20 →
       (chunksOf [0, 1, 2] 2).length = 50 ∧ ∀ c ∈ chunksOf [0, 1, 2] 2, c.length = 20) ∧
     (([0, 1, 2] : List Nat) ≠ [] → ([0, 1, 2] : List Nat).length ≤ 2 →
       chunksOf [0, 1, 2] 2 = [[0, 1, 2]]) ∧
     (∀ fuel, ([0, 1, 2] : List Nat).length < fuel →
       chunkLoopFuel [0, 1, 2] ((2 : Nat) : Int) fuel 0 [] = some (chunksOf [0, 1, 2] 2))) :=
  ⟨by decide, c2_scheduler_chunks [0, 1, 2] 2 (by decide)⟩

/-- C4 (code bug): the claim demands that `maxConcurrent ≤ 0` be rejected or
clamped to 1 and that queue processing always terminate executing each thunk
once.  The code does neither: `config.maxConcurrent || 20` sends the falsy
`0` to `20` (not `1`), passes every negative value through unchanged, and for
`maxConcurrent = -1` the chunk-building loop of `processDownloadQueue` never
terminates on a non-empty queue (no amount of fuel completes it). -/
theorem c4_nontermination :
    effectiveMaxConcurrent (some 0) = 20 ∧
    effectiveMaxConcurrent (some (-1)) = -1 ∧
    ∀ fuel : Nat, chunkLoopFuel ([0] : List Nat) (-1) fuel 0 [] = none := by
  refine ⟨rfl, rfl, ?_⟩
  intro fuel
  exact chunkLoop_neg_one_diverges 0 fuel 0 (by omega) []

/-- C6: each of `emitProgress`, `emitCompletion` and `emitError` sends the
same payload to exactly two audiences — the room named by the job id and all
connected clients — so the delivered client sets are the room members and
the whole connected set. -/
theorem c6_dual_emit {α : Type} (io : IoServer) (jobId event : String) (data : α)
    (e : JsError) :
    emitProgress io jobId event data =
      [⟨Audience.room jobId, event, data⟩, ⟨Audience.all, event, data⟩] ∧
    emitCompletion io jobId event data =
      [⟨Audience.room jobId, event, data⟩, ⟨Audience.all, event, data⟩] ∧
    emitError io jobId event e =
      [⟨Audience.room jobId, event, ⟨jobId, errMessageOrSelf e⟩⟩,
       ⟨Audience.all, event, ⟨jobId, errMessageOrSelf e⟩⟩] ∧
    (emitProgress io jobId event data).map (fun x => recipients io x.audience) =
      [io.roomMembers jobId, io.connected] ∧
    (emitProgress io jobId event data).map (fun x => x.payload) = [data, data] :=
  ⟨rfl, rfl, rfl, rfl, rfl⟩

/-- C9: when the selected character classes and custom characters are
non-empty (so `createPassword` does not throw), a filtered charset emptied by
the exclusion filters yields the empty password, and a non-empty filtered
charset yields a password of exactly `config.length` characters, all drawn
from the filtered charset. -/
theorem c9_create_password (c : PasswordConfig) (bytes : Nat → Nat)
    (h : charsetOf c ≠ []) :
    (filteredCharset c = [] → createPassword c bytes = Except.ok []) ∧
    (filteredCharset c ≠ [] →
      ∃ pwd, createPassword c bytes = Except.ok pwd ∧ pwd.length = c.length ∧
        ∀ ch ∈ pwd, ch ∈ filteredCharset c) := by
  constructor
  · intro hf
    rw [createPassword, if_neg h, hf, buildPwd_nil]
  · intro hf
    exact ⟨buildPwd (filteredCharset c) bytes c.length,
      by rw [createPassword, if_neg h],
      (buildPwd_pos _ bytes c.length hf).1, (buildPwd_pos _ bytes c.length hf).2⟩

theorem c9_create_password_witness :
    charsetOf pwdCfgZero ≠ [] ∧ filteredCharset pwdCfgZero = [] ∧
    createPassword pwdCfgZero (fun _ => 7) = Except.ok [] :=
  ⟨by decide, by decide,
   (c9_create_password pwdCfgZero (fun _ => 7) (by decide)).1 (by decide)⟩

/-- C1 (counterexample): `ucLink` passes `isValidGoogleDriveLink` (so the
item is queued, not skipped) but `extractFileId` finds no id, and the
resulting per-item failure record carries NO `error` property at all — only a
`message` — contradicting the claim that every such validation failure is
converted to a result with a non-empty `error` string. -/
theorem c1_counterexample :
    isValidGoogleDriveLink ucLink = true ∧
    extractFileId ucLink = none ∧
    (processDocument "R1" "Photo" "photos" ucLink "j" itemEnvOk).status = Status.failed ∧
    (processDocument "R1" "Photo" "photos" ucLink "j" itemEnvOk).errorField = none ∧
    (processDocument "R1" "Photo" "photos" ucLink "j" itemEnvOk).message =
      "Invalid Google Drive link" := by
  refine ⟨by decide, by decide, rfl, rfl, rfl⟩

/-- C1 (amended): every work item execution returns a result with a terminal
`success`/`failed` status and never propagates an exception; a link without an
extractable file id yields the fixed `failed` result whose explanation is in
`message` with the `error` property absent; a thrown `fs.ensureDir` is caught
into a `failed` result carrying the exception message in both `message` and
`error`; a failed or rejected download yields `failed` with non-empty
`message` and non-empty `error`; and every queued sibling still produces its
own result (one result per queued thunk). -/
theorem c1_amended (regNo col folder link jobId : String) (env : ItemEnv) :
    ((processDocument regNo col folder link jobId env).status = Status.success ∨
     (processDocument regNo col folder link jobId env).status = Status.failed) ∧
    (extractFileId link = none →
      processDocument regNo col folder link jobId env = invalidLinkResult regNo col ∧
      (invalidLinkResult regNo col).message = "Invalid Google Drive link" ∧
      (invalidLinkResult regNo col).errorField = none) ∧
    (∀ m, env.ensureDir = Except.error m → extractFileId link ≠ none →
      processDocument regNo col folder link jobId env = thrownResult regNo col m ∧
      (thrownResult regNo col m).message = m ∧
      (thrownResult regNo col m).errorField = some m) ∧
    (∀ m, (env.download = DlOutcome.writeErr m ∨ env.download = DlOutcome.httpErr m) →
      extractFileId link ≠ none → env.ensureDir = Except.ok () →
      (processDocument regNo col folder link jobId env).status = Status.failed ∧
      (processDocument regNo col folder link jobId env).message ≠ "" ∧
      ∃ e, (processDocument regNo col folder link jobId env).errorField = some e ∧
        e ≠ "") ∧
    (∀ (total : Nat) (envf : Nat → ItemEnv) (ts : List TaskDesc) (c : Nat),
      (runTasks jobId total envf ts c).1.length = ts.length) := by
  refine ⟨processDocumentTraced_status jobId _ env, ?_, ?_, ?_, ?_⟩
  · intro hx
    refine ⟨?_, rfl, rfl⟩
    simp [processDocument, processDocumentTraced, hx]
  · intro m hm hx
    obtain ⟨fid, hfid⟩ := Option.ne_none_iff_exists'.1 hx
    refine ⟨?_, rfl, rfl⟩
    simp [processDocument, processDocumentTraced, hfid, hm]
  · intro m hm hx hok
    obtain ⟨fid, hfid⟩ := Option.ne_none_iff_exists'.1 hx
    have hred : processDocument regNo col folder link jobId env =
        failedDlResult regNo col ⟨false, none, none, some m⟩ := by
      rcases hm with hm | hm <;>
        simp [processDocument, processDocumentTraced, hfid, hok, downloadModel, hm,
          dlPathTruthy]
    rw [hred]
    by_cases hme : m = ""
    · subst hme
      exact ⟨rfl, by simp [failedDlResult, orElseStr], "Unknown error",
        by simp [failedDlResult, orElseStr], by simp⟩
    · exact ⟨rfl, by simp [failedDlResult, orElseStr, hme], m,
        by simp [failedDlResult, orElseStr, hme], hme⟩
  · intro total envf ts c
    exact (runTasks_results jobId total envf ts c).1

theorem c1_amended_witness :
    extractFileId driveLink ≠ none ∧
    itemEnvWriteFail.ensureDir = Except.ok () ∧
    ((processDocument "R1" "Photo" "photos" driveLink "j" itemEnvWriteFail).status =
        Status.failed ∧
     (processDocument "R1" "Photo" "photos" driveLink "j" itemEnvWriteFail).message ≠ "" ∧
     ∃ e, (processDocument "R1" "Photo" "photos" driveLink "j"
        itemEnvWriteFail).errorField = some e ∧ e ≠ "") :=
  ⟨by decide, rfl,
   (c1_amended "R1" "Photo" "photos" driveLink "j" itemEnvWriteFail).2.2.2.1
     "ECONNRESET" (Or.inl rfl) (by decide) rfl⟩

/-- C5 (counterexample): two distinct successful items of the same job — one
with registration number `A` in column `B C`, one with registration number
`A_B` in column `C`, both mapped to folder `docs` — produce the SAME archive
entry name `docs/A_B_C.pdf`, so the claimed no-collision property fails. -/
theorem c5_counterexample :
    (processDocument "A" "B C" "docs" driveLink "j" itemEnvOk).status = Status.success ∧
    (processDocument "A_B" "C" "docs" driveLink "j" itemEnvOk).status = Status.success ∧
    processDocument "A" "B C" "docs" driveLink "j" itemEnvOk ≠
      processDocument "A_B" "C" "docs" driveLink "j" itemEnvOk ∧
    (createZipArchiveEntries
        [processDocument "A" "B C" "docs" driveLink "j" itemEnvOk,
         processDocument "A_B" "C" "docs" driveLink "j" itemEnvOk]).map Prod.fst =
      ["docs/A_B_C.pdf", "docs/A_B_C.pdf"] ∧
    ¬ ((createZipArchiveEntries
        [processDocument "A" "B C" "docs" driveLink "j" itemEnvOk,
         processDocument "A_B" "C" "docs" driveLink "j" itemEnvOk]).map Prod.fst).Nodup := by
  refine ⟨rfl, rfl, by decide, rfl, by decide⟩

/-- C5 (amended): the archive contains exactly one entry per result with
status `success` and a populated (truthy) `filePath` — failed and skipped
results contribute nothing, no placeholder is inserted — with the entry name
derived deterministically from the path; entry names are NOT guaranteed
collision-free for distinct items (see the counterexample). -/
theorem c5_amended (results : List DFResult) :
    ((createZipArchiveEntries results).length =
      results.countP (fun r => r.status == Status.success && pathPopulated r)) ∧
    (∀ e ∈ createZipArchiveEntries results, ∃ r ∈ results,
      r.status = Status.success ∧
      ∃ fp, r.filePath = some fp ∧ fp ≠ "" ∧ e = (zipEntryName fp, fp)) ∧
    (∀ r ∈ results, r.status = Status.success → ∀ fp, r.filePath = some fp →
      fp ≠ "" → (zipEntryName fp, fp) ∈ createZipArchiveEntries results) :=
  ⟨zipEntries_count results, zipEntries_sound results, zipEntries_complete results⟩

theorem c5_amended_witness :
    resPhoto ∈ [resPhoto] ∧ resPhoto.status = Status.success ∧
    resPhoto.filePath = some "downloads/photos/R1_Photo.pdf" ∧
    ("downloads/photos/R1_Photo.pdf" : String) ≠ "" ∧
    (zipEntryName "downloads/photos/R1_Photo.pdf", "downloads/photos/R1_Photo.pdf") ∈
      createZipArchiveEntries [resPhoto] :=
  ⟨by decide, rfl, rfl, by decide,
   (c5_amended [resPhoto]).2.2 resPhoto (by decide) rfl
     "downloads/photos/R1_Photo.pdf" rfl (by decide)⟩

/-- C3: once a batch completes, every result carries exactly one terminal
status (`success`, `failed` or `skipped` — never `pending`/`processing`), and
the three counts sum to `totalTasks + skippedTasks`, the totals reported in
the start event (`totalTasks`, `skippedTasks`) and the complete event
(`totalProcessed = totalTasks`, `totalSkipped = skippedTasks`). -/
theorem c3_status_partition (data : List (Option StudentRow)) (config : DFConfig)
    (jobId : String) (env : BatchEnv)
    (hbase : env.ensureBase = Except.ok ())
    (hzip : env.zip = Except.ok ())
    (hk : 0 < effectiveMaxConcurrent config.maxConcurrent) :
    ∃ results,
      (processExcelFile data config jobId env).1 = Except.ok results ∧
      (∀ r ∈ results, r.status = Status.success ∨ r.status = Status.failed ∨
        r.status = Status.skipped) ∧
      countStatus results Status.success + countStatus results Status.failed +
        countStatus results Status.skipped =
        (firstPass config data).1 + (firstPass config data).2 ∧
      DFEvent.start ⟨jobId, data.length, (firstPass config data).1,
        (firstPass config data).2, (firstPass config data).1⟩ ∈
        (processExcelFile data config jobId env).2 ∧
      DFEvent.complete ⟨jobId, (firstPass config data).1, (firstPass config data).2,
        zipPathName jobId, results⟩ ∈ (processExcelFile data config jobId env).2 := by
  have hkn : 0 < (effectiveMaxConcurrent config.maxConcurrent).toNat := by omega
  have hq : (chunksOf (buildQueue config 0 data).2
      (effectiveMaxConcurrent config.maxConcurrent).toNat).flatten =
      (buildQueue config 0 data).2 :=
    chunksOf_flatten _ hkn _
  simp only [processExcelFile, hbase, hzip, hq]
  set run := runTasks jobId (firstPass config data).1 env.item
    (buildQueue config 0 data).2 0 with hrun
  have hlen : run.1.length = (buildQueue config 0 data).2.length :=
    (runTasks_results jobId (firstPass config data).1 env.item
      (buildQueue config 0 data).2 0).1
  have hsf : ∀ r ∈ run.1, r.status = Status.success ∨ r.status = Status.failed :=
    (runTasks_results jobId (firstPass config data).1 env.item
      (buildQueue config 0 data).2 0).2
  have hbc := buildQueue_counts config data 0
  have hsk : ∀ r ∈ (buildQueue config 0 data).1, r.status = Status.skipped :=
    fun r hr => buildQueue_skipped config data 0 r hr
  refine ⟨(buildQueue config 0 data).1 ++ run.1, rfl, ?_, ?_, ?_, ?_⟩
  · intro r hr
    rcases List.mem_append.1 hr with hr | hr
    · exact Or.inr (Or.inr (hsk r hr))
    · rcases hsf r hr with h | h
      · exact Or.inl h
      · exact Or.inr (Or.inl h)
  · have h1 : countStatus (buildQueue config 0 data).1 Status.success = 0 :=
      countStatus_none _ _ (fun r hr => by rw [hsk r hr]; simp)
    have h2 : countStatus (buildQueue config 0 data).1 Status.failed = 0 :=
      countStatus_none _ _ (fun r hr => by rw [hsk r hr]; simp)
    have h3 : countStatus (buildQueue config 0 data).1 Status.skipped =
        (buildQueue config 0 data).1.length := countStatus_all _ _ hsk
    have h4 : countStatus run.1 Status.skipped = 0 :=
      countStatus_none _ _ (fun r hr => by
        rcases hsf r hr with h | h <;> rw [h] <;> simp)
    have h5 := countStatus_partition run.1 (fun r hr => by
      rcases hsf r hr with h | h
      · exact Or.inl h
      · exact Or.inr (Or.inl h))
    simp only [countStatus_append]
    omega
  · exact List.mem_cons_self _ _
  · have hplen : run.1.length = (firstPass config data).1 := by
      rw [hlen]
      exact hbc.1.symm
    have heq : (⟨jobId, (firstPass config data).1, (firstPass config data).2,
        zipPathName jobId, (buildQueue config 0 data).1 ++ run.1⟩ : CompletePayload) =
        ⟨jobId, run.1.length, (firstPass config data).2,
          zipPathName jobId, (buildQueue config 0 data).1 ++ run.1⟩ := by
      rw [hplen]
    rw [heq]
    exact List.mem_cons_of_mem _ (List.mem_append_right _ (List.mem_singleton.2 rfl))

theorem c3_status_partition_witness :
    batchEnvOk.ensureBase = Except.ok () ∧ batchEnvOk.zip = Except.ok () ∧
    0 < effectiveMaxConcurrent cfgPhoto.maxConcurrent ∧
    (∃ results,
      (processExcelFile [rowPhoto] cfgPhoto "j" batchEnvOk).1 = Except.ok results ∧
      (∀ r ∈ results, r.status = Status.success ∨ r.status = Status.failed ∨
        r.status = Status.skipped) ∧
      countStatus results Status.success + countStatus results Status.failed +
        countStatus results Status.skipped =
        (firstPass cfgPhoto [rowPhoto]).1 + (firstPass cfgPhoto [rowPhoto]).2 ∧
      DFEvent.start ⟨"j", ([rowPhoto] : List (Option StudentRow)).length,
        (firstPass cfgPhoto [rowPhoto]).1, (firstPass cfgPhoto [rowPhoto]).2,
        (firstPass cfgPhoto [rowPhoto]).1⟩ ∈
        (processExcelFile [rowPhoto] cfgPhoto "j" batchEnvOk).2 ∧
      DFEvent.complete ⟨"j", (firstPass cfgPhoto [rowPhoto]).1,
        (firstPass cfgPhoto [rowPhoto]).2, zipPathName "j", results⟩ ∈
        (processExcelFile [rowPhoto] cfgPhoto "j" batchEnvOk).2) :=
  ⟨rfl, rfl, by decide,
   c3_status_partition [rowPhoto] cfgPhoto "j" batchEnvOk rfl rfl (by decide)⟩

/-- C7: every `document-fetcher:progress` event carries the job id, the
completed count so far (between 1 and the total), the fixed task total, the
result of the item that just completed (the `current`-th executed task's
result), and the derived percentage `current / total * 100`, which always
lies within `[0, 100]`. -/
theorem c7_progress_payload (data : List (Option StudentRow)) (config : DFConfig)
    (jobId : String) (env : BatchEnv) (p : ProgressPayload)
    (hp : DFEvent.progress p ∈ (processExcelFile data config jobId env).2) :
    p.jobId = jobId ∧ p.total = (firstPass config data).1 ∧
    1 ≤ p.current ∧ p.current ≤ p.total ∧
    p.progressPct = ((p.current : ℚ) / ((p.total : ℚ))) * 100 ∧
    0 ≤ p.progressPct ∧ p.progressPct ≤ 100 ∧
    (runTasks jobId (firstPass config data).1 env.item
      ((chunksOf (buildQueue config 0 data).2
        (effectiveMaxConcurrent config.maxConcurrent).toNat).flatten) 0).1.get?
      (p.current - 1) = some p.result := by
  cases hbase : env.ensureBase with
  | error e =>
    simp [processExcelFile, hbase] at hp
  | ok u =>
    cases u
    have hq : DFEvent.progress p ∈ (runTasks jobId (firstPass config data).1 env.item
        ((chunksOf (buildQueue config 0 data).2
          (effectiveMaxConcurrent config.maxConcurrent).toNat).flatten) 0).2 := by
      cases hzip : env.zip with
      | error e =>
        simp only [processExcelFile, hbase, hzip, List.mem_cons, List.mem_append,
          List.mem_singleton] at hp
        rcases hp with hp | hp | hp
        · exact absurd hp (by simp)
        · exact hp
        · exact absurd hp (by simp)
      | ok v =>
        cases v
        simp only [processExcelFile, hbase, hzip, List.mem_cons, List.mem_append,
          List.mem_singleton] at hp
        rcases hp with hp | hp | hp
        · exact absurd hp (by simp)
        · exact hp
        · exact absurd hp (by simp)
    obtain ⟨h1, h2, h3, h4, h5, h6⟩ := runTasks_progress jobId
      (firstPass config data).1 env.item _ 0 p hq
    have hqlen : ((chunksOf (buildQueue config 0 data).2
        (effectiveMaxConcurrent config.maxConcurrent).toNat).flatten).length ≤
        (firstPass config data).1 := by
      rw [(buildQueue_counts config data 0).1]
      exact chunksOf_flatten_length_le _ _
    have hcur : p.current ≤ p.total := by
      rw [h2]
      omega
    have htotpos : 0 < p.total := by omega
    have hpos : (0 : ℚ) < (p.total : ℚ) := by
      exact_mod_cast htotpos
    have hpct0 : 0 ≤ p.progressPct := by
      rw [h5]
      positivity
    have hpct100 : p.progressPct ≤ 100 := by
      rw [h5, ← h2]
      have hle1 : ((p.current : ℚ) / (p.total : ℚ)) ≤ 1 := by
        rw [div_le_one hpos]
        exact_mod_cast hcur
      calc ((p.current : ℚ) / (p.total : ℚ)) * 100 ≤ 1 * 100 :=
            mul_le_mul_of_nonneg_right hle1 (by norm_num)
        _ = 100 := by norm_num
    refine ⟨h1, h2, by omega, hcur, by rw [h5, h2], hpct0, hpct100, ?_⟩
    have hidx : p.current - 0 - 1 = p.current - 1 := by omega
    rw [← hidx]
    exact h6

theorem c7_progress_payload_witness :
    (DFEvent.progress pPhoto ∈ (processExcelFile [rowPhoto] cfgPhoto "j" batchEnvOk).2) ∧
    (pPhoto.jobId = "j" ∧ pPhoto.total = (firstPass cfgPhoto [rowPhoto]).1 ∧
     1 ≤ pPhoto.current ∧ pPhoto.current ≤ pPhoto.total ∧
     pPhoto.progressPct = ((pPhoto.current : ℚ) / ((pPhoto.total : ℚ))) * 100 ∧
     0 ≤ pPhoto.progressPct ∧ pPhoto.progressPct ≤ 100 ∧
     (runTasks "j" (firstPass cfgPhoto [rowPhoto]).1 batchEnvOk.item
       ((chunksOf (buildQueue cfgPhoto 0 [rowPhoto]).2
         (effectiveMaxConcurrent cfgPhoto.maxConcurrent).toNat).flatten) 0).1.get?
       (pPhoto.current - 1) = some pPhoto.result) := by
  have htr : (processExcelFile [rowPhoto] cfgPhoto "j" batchEnvOk).2 =
      [DFEvent.start ⟨"j", 1, 1, 0, 1⟩,
       DFEvent.dlStart "j" "R1" "Photo"
         "https://drive.google.com/uc?export=download&id=abc123",
       DFEvent.dlComplete "j" "R1" "Photo" "downloads/photos/R1_Photo.pdf",
       DFEvent.progress pPhoto,
       DFEvent.complete ⟨"j", 1, 0, zipPathName "j", [resPhoto]⟩] := rfl
  have hp : DFEvent.progress pPhoto ∈ (processExcelFile [rowPhoto] cfgPhoto "j" batchEnvOk).2 := by
    rw [htr]
    exact List.mem_cons_of_mem _ (List.mem_cons_of_mem _ (List.mem_cons_of_mem _
      (List.mem_cons_self _ _)))
  exact ⟨hp, c7_progress_payload [rowPhoto] cfgPhoto "j" batchEnvOk pPhoto hp⟩

/-- C8: an empty input list makes the batch complete immediately — no work
function runs, the start event reports totals of 0, the complete event
reports `totalProcessed = 0` and `totalSkipped = 0` with the empty result
array, the archive is valid and empty, and no error event is emitted (the
trace consists of exactly the start and the complete event). -/
theorem c8_empty_batch (config : DFConfig) (jobId : String) (env : BatchEnv)
    (hbase : env.ensureBase = Except.ok ()) (hzip : env.zip = Except.ok ()) :
    (processExcelFile [] config jobId env).1 = Except.ok [] ∧
    (processExcelFile [] config jobId env).2 =
      [DFEvent.start ⟨jobId, 0, 0, 0, 0⟩,
       DFEvent.complete ⟨jobId, 0, 0, zipPathName jobId, []⟩] ∧
    createZipArchiveEntries [] = [] := by
  refine ⟨?_, ?_, rfl⟩ <;>
    simp [processExcelFile, hbase, hzip, firstPass, buildQueue, chunksOf, chunksOfAux,
      runTasks]

theorem c8_empty_batch_witness :
    batchEnvOk.ensureBase = Except.ok () ∧ batchEnvOk.zip = Except.ok () ∧
    ((processExcelFile [] cfgPhoto "j" batchEnvOk).1 = Except.ok [] ∧
     (processExcelFile [] cfgPhoto "j" batchEnvOk).2 =
       [DFEvent.start ⟨"j", 0, 0, 0, 0⟩,
        DFEvent.complete ⟨"j", 0, 0, zipPathName "j", []⟩] ∧
     createZipArchiveEntries [] = []) :=
  ⟨rfl, rfl, c8_empty_batch cfgPhoto "j" batchEnvOk rfl rfl⟩

/-- C10 (counterexample): when the initial `fs.ensureDir(DOWNLOAD_DIR)`
throws — a batch-level failure occurring BEFORE the service's try block and
start event — the service emits nothing, so `document-fetcher:error` is
emitted exactly once (by the driver's catch), not twice, and the start event
is emitted only once (by the driver). -/
theorem c10_counterexample :
    (processExcelFile [] cfgPhoto "jobx" batchEnvNoDir).1 =
      Except.error "ENOSPC: no space left on device" ∧
    countEv isErrorEv (processDocumentsInBackground [] cfgPhoto "jobx" batchEnvNoDir) = 1 ∧
    countEv isServiceStart (processDocumentsInBackground [] cfgPhoto "jobx" batchEnvNoDir) = 0 ∧
    countEv isDriverStart (processDocumentsInBackground [] cfgPhoto "jobx" batchEnvNoDir) = 1 :=
  ⟨rfl, rfl, rfl, rfl⟩

/-- C10 (amended): when the batch completes successfully, the
`document-fetcher:start` event is emitted exactly twice — once by the driver
(record count + raw config payload) and once by the service (computed totals
payload) — and `document-fetcher:complete` likewise exactly twice, with no
error event; when the batch fails INSIDE the service's try block (after the
service's start event, e.g. during archive creation), `document-fetcher:error`
is emitted exactly twice, once by the service before rethrowing and once by
the driver's catch.  (A failure before the try block yields a single error
event; see the counterexample.) -/
theorem c10_amended (data : List (Option StudentRow)) (config : DFConfig)
    (jobId : String) (env : BatchEnv) (tr : List DFEvent)
    (htr : tr = processDocumentsInBackground data config jobId env)
    (hbase : env.ensureBase = Except.ok ()) :
    (env.zip = Except.ok () →
      countEv isDriverStart tr = 1 ∧ countEv isServiceStart tr = 1 ∧
      countEv isDriverComplete tr = 1 ∧ countEv isServiceComplete tr = 1 ∧
      countEv isErrorEv tr = 0) ∧
    (∀ m, env.zip = Except.error m →
      countEv isDriverStart tr = 1 ∧ countEv isServiceStart tr = 1 ∧
      countEv isDriverComplete tr = 0 ∧ countEv isServiceComplete tr = 0 ∧
      countEv isErrorEv tr = 2) := by
  subst htr
  have hz : ∀ f : DFEvent → Bool,
      (∀ e, (isDlEvent e = true ∨ isProgressEvent e = true) → f e = false) →
      List.countP f (runTasks jobId (firstPass config data).1 env.item
        ((chunksOf (buildQueue config 0 data).2
          (effectiveMaxConcurrent config.maxConcurrent).toNat).flatten) 0).2 = 0 := by
    intro f hf
    have h := runTasks_no_lifecycle jobId (firstPass config data).1 env.item
      ((chunksOf (buildQueue config 0 data).2
        (effectiveMaxConcurrent config.maxConcurrent).toNat).flatten) 0 f hf
    simpa [countEv] using h
  have hzds := hz isDriverStart (fun e he => (lifecycle_false_of_dl_or_progress e he).1)
  have hzss := hz isServiceStart (fun e he => (lifecycle_false_of_dl_or_progress e he).2.1)
  have hzdc := hz isDriverComplete
    (fun e he => (lifecycle_false_of_dl_or_progress e he).2.2.1)
  have hzsc := hz isServiceComplete
    (fun e he => (lifecycle_false_of_dl_or_progress e he).2.2.2.1)
  have hzer := hz isErrorEv (fun e he => (lifecycle_false_of_dl_or_progress e he).2.2.2.2)
  constructor
  · intro hzip
    refine ⟨?_, ?_, ?_, ?_, ?_⟩ <;>
      simp [processDocumentsInBackground, processExcelFile, hbase, hzip, countEv,
        List.countP_cons, List.countP_append, hzds, hzss, hzdc, hzsc, hzer,
        isDriverStart, isServiceStart, isDriverComplete, isServiceComplete, isErrorEv]
  · intro m hzip
    refine ⟨?_, ?_, ?_, ?_, ?_⟩ <;>
      simp [processDocumentsInBackground, processExcelFile, hbase, hzip, countEv,
        List.countP_cons, List.countP_append, hzds, hzss, hzdc, hzsc, hzer,
        isDriverStart, isServiceStart, isDriverComplete, isServiceComplete, isErrorEv]

theorem c10_amended_witness :
    batchEnvOk.ensureBase = Except.ok () ∧ batchEnvOk.zip = Except.ok () ∧
    (countEv isDriverStart (processDocumentsInBackground [] cfgPhoto "j" batchEnvOk) = 1 ∧
     countEv isServiceStart (processDocumentsInBackground [] cfgPhoto "j" batchEnvOk) = 1 ∧
     countEv isDriverComplete (processDocumentsInBackground [] cfgPhoto "j" batchEnvOk) = 1 ∧
     countEv isServiceComplete (processDocumentsInBackground [] cfgPhoto "j" batchEnvOk) = 1 ∧
     countEv isErrorEv (processDocumentsInBackground [] cfgPhoto "j" batchEnvOk) = 0) :=
  ⟨rfl, rfl,
   (c10_amended [] cfgPhoto "j" batchEnvOk _ rfl rfl).1 rfl⟩
